import Mathlib

/-!
Verification of the tree-structured cable-equation cell module
(`neurax/modules/cell.py`): conductance assembly (`init_branch_conds`),
morphology levels (`compute_levels`), the dynamic-attribute fallback
(`__getattr__`), and the reshape/flatten round trip used by `step`.

Numeric values are modelled over `ℚ`; the claims under scrutiny are about
the exact algebraic formulas the code evaluates, not about floating-point
rounding.  Per-compartment arrays indexed `[branch, seg]` are modelled as
functions `Nat → Nat → ℚ`.
-/

namespace Neurax

/-- The data of a `Cell` that `init_branch_conds` reads: the shape
`(nbranches, nseg)`, the `parents` array (entry `0` belongs to the root and
is never read — the source stores `-1` there), the per-compartment
parameters `radius`, `length`, `axial_resistivity` (each reshaped to
`(nbranches, nseg)` at the top of `init_branch_conds`), and the
`summed_coupling_conds` matrix as it stands on entry (assembled from the
`Branch` objects in `__init__`). -/
structure Cell where
  nbranches : Nat
  nseg : Nat
  parents : Nat → Nat
  radius : Nat → Nat → ℚ
  length : Nat → Nat → ℚ
  axial_resistivity : Nat → Nat → ℚ
  summed0 : Nat → Nat → ℚ

/-- The helper defined inside `init_branch_conds`:
`rad1 * rad2 ** 2 / r_a / (rad2 ** 2 * l1 + rad1 ** 2 * l2) / l1`. -/
def compute_coupling_cond (rad1 rad2 r_a l1 l2 : ℚ) : ℚ :=
  rad1 * rad2 ^ 2 / r_a / (rad2 ^ 2 * l1 + rad1 ^ 2 * l2) / l1

/-- `branch_conds_bwd` before the `10 ** 7` scaling.  Index `j` stands for
branch `j + 1` (the source gathers over `arange(1, nbranches)`).  The code
is `compute_coupling_cond(rad2, rad1, r_a1, l2, l1)` with
`rad2 = radiuses[parents[j+1], 0]`, `rad1 = radiuses[j+1, -1]`,
`r_a1 = axial_resistivity[j+1, -1]`, `l2 = lengths[parents[j+1], 0]`,
`l1 = lengths[j+1, -1]`. -/
def branch_conds_bwd_raw (c : Cell) (j : Nat) : ℚ :=
  compute_coupling_cond (c.radius (c.parents (j + 1)) 0)
    (c.radius (j + 1) (c.nseg - 1))
    (c.axial_resistivity (j + 1) (c.nseg - 1))
    (c.length (c.parents (j + 1)) 0)
    (c.length (j + 1) (c.nseg - 1))

/-- `branch_conds_fwd` before the `10 ** 7` scaling:
`compute_coupling_cond(rad1, rad2, r_a2, l1, l2)` with
`rad1 = radiuses[j+1, -1]`, `rad2 = radiuses[parents[j+1], 0]`,
`r_a2 = axial_resistivity[parents[j+1], 0]`, `l1 = lengths[j+1, -1]`,
`l2 = lengths[parents[j+1], 0]`. -/
def branch_conds_fwd_raw (c : Cell) (j : Nat) : ℚ :=
  compute_coupling_cond (c.radius (j + 1) (c.nseg - 1))
    (c.radius (c.parents (j + 1)) 0)
    (c.axial_resistivity (c.parents (j + 1)) 0)
    (c.length (j + 1) (c.nseg - 1))
    (c.length (c.parents (j + 1)) 0)

/-- `self.branch_conds_fwd *= 10 ** 7`. -/
def branch_conds_fwd_scaled (c : Cell) (j : Nat) : ℚ :=
  branch_conds_fwd_raw c j * 10 ^ 7

/-- `self.branch_conds_bwd *= 10 ** 7`. -/
def branch_conds_bwd_scaled (c : Cell) (j : Nat) : ℚ :=
  branch_conds_bwd_raw c j * 10 ^ 7

/-- `arr.at[a, b].add v` on a `(branch, seg)`-indexed matrix. -/
def addAt (s : Nat → Nat → ℚ) (a b : Nat) (v : ℚ) : Nat → Nat → ℚ :=
  fun i j => if i = a ∧ j = b then s i j + v else s i j

/-- The accumulation loop of `init_branch_conds` after processing
`b = 1, …, k`.  Each iteration performs
`summed_coupling_conds.at[b, -1].add(branch_conds_fwd[b-1])` followed by
`summed_coupling_conds.at[parents[b], 0].add(branch_conds_bwd[b-1])`
(the `-1` column is `nseg - 1`). -/
def summed_loop (c : Cell) (s0 : Nat → Nat → ℚ) : Nat → Nat → Nat → ℚ
  | 0 => s0
  | k + 1 =>
      addAt
        (addAt (summed_loop c s0 k) (k + 1) (c.nseg - 1)
          (branch_conds_fwd_scaled c k))
        (c.parents (k + 1)) 0 (branch_conds_bwd_scaled c k)

/-- `summed_coupling_conds` after `init_branch_conds` ran once starting
from `s0`: the loop runs over `range(1, nbranches)`. -/
def summed_coupling_conds_after (c : Cell) (s0 : Nat → Nat → ℚ) :
    Nat → Nat → ℚ :=
  summed_loop c s0 (c.nbranches - 1)

/-- The final padded array
`branch_conds_fwd = concatenate([[0.0], branch_conds_fwd])`. -/
def branch_conds_fwd_final (c : Cell) : List ℚ :=
  0 :: (List.range (c.nbranches - 1)).map (branch_conds_fwd_scaled c)

/-- The final padded array
`branch_conds_bwd = concatenate([[0.0], branch_conds_bwd])`. -/
def branch_conds_bwd_final (c : Cell) : List ℚ :=
  0 :: (List.range (c.nbranches - 1)).map (branch_conds_bwd_scaled c)

/-- Total backward-junction conductance contributed to branch `p` by the
loop iterations `b = 1, …, k`: the sum of `branch_conds_bwd[b-1]` over the
children `b` of `p` among those iterations. -/
def childSum (c : Cell) (p : Nat) (k : Nat) : ℚ :=
  ∑ b ∈ Finset.Ico 1 (k + 1),
    if c.parents b = p then branch_conds_bwd_scaled c (b - 1) else 0

/-! ### Dynamic attribute lookup (`__getattr__`)

`Cell.__getattr__` is
`assert key == "branch"; return BranchView(self, self.nodes)`.
Python invokes `__getattr__` only when ordinary instance/class lookup
fails, so we model attribute access as: a hit among the attributes set on
the instance returns that attribute's value, a miss runs the fallback,
and the failed `assert` surfaces as an `AssertionError`. -/

/-- The fallback body of `Cell.__getattr__`. -/
def getattr_fallback (key : String) : Except String String :=
  if key = "branch" then Except.ok "BranchView(self, self.nodes)"
  else Except.error "AssertionError"

/-- Python attribute lookup on a `Cell`: a set attribute is found
normally, anything else goes through `__getattr__`. -/
def cell_getattr (attrs : List String) (key : String) :
    Except String String :=
  if key ∈ attrs then Except.ok key else getattr_fallback key

/-- The instance attributes a freshly constructed `Cell` has, as assigned
in `Cell.__init__` (the params/state registries of the `Module` base class
are external collaborators; none of them is `branch_conds_fwd`, which only
`init_branch_conds` assigns). -/
def fresh_cell_attrs : List String :=
  ["params", "states", "branches", "nseg", "nbranches", "parents", "nodes",
   "coupling_conds_bwd", "coupling_conds_fwd", "summed_coupling_conds",
   "initialized_morph", "initialized_conds"]

/-- The first attribute read `step` performs on a fresh `Cell`: the guard
`if self.branch_conds_fwd is None` evaluates `self.branch_conds_fwd`. -/
def step_first_conds_access : Except String String :=
  cell_getattr fresh_cell_attrs "branch_conds_fwd"

/-! ### Reshape / flatten (`step`)

`step` reshapes the flat voltage vector to `(nbranches, nseg)` row-major
and the solver output is flattened back with `flatten(order="C")`. -/

/-- Row-major `reshape(v, (n, m))` as a list of `n` rows of `m`. -/
def reshape (n m : Nat) (v : List ℚ) : List (List ℚ) :=
  match n with
  | 0 => []
  | n + 1 => v.take m :: reshape n m (v.drop m)

/-- `flatten(order="C")`: concatenate the rows. -/
def flatten_C (x : List (List ℚ)) : List ℚ :=
  x.flatten

/-! ### Morphology levels

`init_morph` computes `self.levels = compute_levels(self.parents)`.
`compute_levels` lives in `neurax/cell.py`, which is not part of the
sources at hand, so it is modelled from the specification. -/

/-- Modelled from the spec: `compute_levels` (from `neurax/cell.py`, not
among the sources) assigns the root branch level `0` and every other
branch the level of its parent plus one, in a single pass.  The fuel
argument bounds the parent-chain walk; for a cycle-free `parents` array of
length `n` a fuel of `n` suffices. -/
def levelF (parents : Nat → Nat) : Nat → Nat → Nat
  | 0, _ => 0
  | fuel + 1, i => if i = 0 then 0 else levelF parents fuel (parents i) + 1

/-- Modelled from the spec: the `levels` array produced by `init_morph`
for a `parents` array of length `n`. -/
def compute_levels (n : Nat) (parents : Nat → Nat) (i : Nat) : Nat :=
  levelF parents n i

/-- Validity of a `parents` array of length `n` (spec §4.1: values in
range, branch 0 unparented, cycle-free): every branch's parent chain
reaches the root within fewer than `n` steps.  For in-range arrays this is
exactly acyclicity. -/
abbrev parents_reach_root (n : Nat) (parents : Nat → Nat) : Prop :=
  ∀ i ∈ Finset.range n, ∃ k ∈ Finset.range n, parents^[k] i = 0

/-! ### Concrete cells used in counterexamples and witnesses -/

/-- Two branches, one compartment each, uniform geometry: branch 1 is the
child of the root branch 0, every radius, length and resistivity is 1. -/
def cellUniform : Cell where
  nbranches := 2
  nseg := 1
  parents := fun _ => 0
  radius := fun _ _ => 1
  length := fun _ _ => 1
  axial_resistivity := fun _ _ => 1
  summed0 := fun _ _ => 0

/-- Two branches, one compartment each, asymmetric geometry: the root
(parent) compartment has radius 2 and axial resistivity 3, the child
compartment has radius 1 and axial resistivity 1; all lengths are 1. -/
def cellAsym : Cell where
  nbranches := 2
  nseg := 1
  parents := fun _ => 0
  radius := fun b _ => if b = 0 then 2 else 1
  length := fun _ _ => 1
  axial_resistivity := fun b _ => if b = 0 then 3 else 1
  summed0 := fun _ _ => 0

/-- Two branches of two compartments each, uniform unit geometry. -/
def cellTwoSeg : Cell where
  nbranches := 2
  nseg := 2
  parents := fun _ => 0
  radius := fun _ _ => 1
  length := fun _ _ => 1
  axial_resistivity := fun _ _ => 1
  summed0 := fun _ _ => 0

/-- A three-branch chain 0 ← 1 ← 2 used as the levels witness. -/
def parentsChain : Nat → Nat :=
  fun i => if i = 2 then 1 else 0

/-! ### Helper lemmas -/

/-- `getD` on a mapped `range` returns the mapped index when in bounds. -/
lemma getD_map_range (f : Nat → ℚ) (k i : Nat) (h : i < k) :
    ((List.range k).map f).getD i 0 = f i := by
  rw [List.getD_eq_getElem?_getD]
  simp [List.getElem?_map, List.getElem?_range, h]

/-- Updating the targeted entry. -/
lemma addAt_same (s : Nat → Nat → ℚ) (a b : Nat) (v : ℚ) :
    addAt s a b v a b = s a b + v := by
  simp [addAt]

/-- Updating anywhere else leaves the entry alone. -/
lemma addAt_other (s : Nat → Nat → ℚ) (a b : Nat) (v : ℚ) (i j : Nat)
    (h : ¬(i = a ∧ j = b)) : addAt s a b v i j = s i j := by
  simp only [addAt, if_neg h]

/-- One more loop iteration adds branch `k + 1`'s backward conductance to
its parent's running total. -/
lemma childSum_succ (c : Cell) (p k : Nat) :
    childSum c p (k + 1)
      = childSum c p k
        + (if c.parents (k + 1) = p then branch_conds_bwd_scaled c k else 0) := by
  unfold childSum
  rw [Finset.sum_Ico_succ_top (by omega : (1 : ℕ) ≤ k + 1)]
  simp

/-- After iterations `b = 1, …, k`, the last-compartment entry of branch
`b₀ ≥ 1` holds its initial value plus, once `b₀` has been processed, its
own forward junction conductance (needs `nseg ≥ 2`, so that the column
`nseg - 1` is not column `0`). -/
lemma summed_loop_lastcol (c : Cell) (s0 : Nat → Nat → ℚ) (h2 : 2 ≤ c.nseg)
    (b : Nat) (hb : 1 ≤ b) :
    ∀ k, summed_loop c s0 k b (c.nseg - 1)
      = s0 b (c.nseg - 1)
        + (if b ≤ k then branch_conds_fwd_scaled c (b - 1) else 0) := by
  intro k
  induction k with
  | zero => rw [if_neg (by omega)]; simp [summed_loop]
  | succ k ih =>
    have hcol : ¬(b = c.parents (k + 1) ∧ c.nseg - 1 = 0) := fun hc => by omega
    simp only [summed_loop]
    rw [addAt_other _ _ _ _ _ _ hcol]
    by_cases hbk : b = k + 1
    · subst hbk
      rw [addAt_same, ih, if_neg (by omega : ¬(k + 1 ≤ k)),
        if_pos (le_refl (k + 1))]
      simp
    · rw [addAt_other _ _ _ _ _ _ (fun hc => hbk hc.1), ih]
      by_cases hble : b ≤ k
      · rw [if_pos hble, if_pos (by omega)]
      · rw [if_neg hble, if_neg (by omega)]

/-- After iterations `b = 1, …, k`, the first-compartment entry of any
branch `p` holds its initial value plus the accumulated backward junction
conductances of its processed children (needs `nseg ≥ 2`). -/
lemma summed_loop_col0 (c : Cell) (s0 : Nat → Nat → ℚ) (h2 : 2 ≤ c.nseg)
    (p : Nat) :
    ∀ k, summed_loop c s0 k p 0 = s0 p 0 + childSum c p k := by
  intro k
  induction k with
  | zero => simp [summed_loop, childSum]
  | succ k ih =>
    have hcol : ¬(p = k + 1 ∧ (0 : ℕ) = c.nseg - 1) := fun hc => by omega
    simp only [summed_loop]
    rw [childSum_succ]
    by_cases hp : p = c.parents (k + 1)
    · subst hp
      rw [addAt_same, addAt_other _ _ _ _ _ _ hcol, ih, if_pos rfl]
      ring
    · rw [addAt_other _ _ _ _ _ _ (fun hc => hp hc.1),
        addAt_other _ _ _ _ _ _ hcol, ih, if_neg (fun hc => hp hc.symm)]
      ring

/-- Entries outside column `0` and outside the last-compartment slots of
the processed branches are untouched by the loop. -/
lemma summed_loop_other (c : Cell) (s0 : Nat → Nat → ℚ) (i j : Nat)
    (hj : j ≠ 0) :
    ∀ k, ¬(1 ≤ i ∧ i ≤ k ∧ j = c.nseg - 1) → summed_loop c s0 k i j = s0 i j := by
  intro k
  induction k with
  | zero => intro _; rfl
  | succ k ih =>
    intro hne
    simp only [summed_loop]
    rw [addAt_other _ _ _ _ _ _ (fun hc => hj hc.2),
      addAt_other _ _ _ _ _ _ (fun hc => hne ⟨by omega, by omega, hc.2⟩)]
    exact ih (fun hc => hne ⟨hc.1, by omega, hc.2.2⟩)

/-- The root is at level 0 for any fuel. -/
lemma levelF_zero (parents : Nat → Nat) (fuel : Nat) :
    levelF parents fuel 0 = 0 := by
  cases fuel <;> simp [levelF]

/-- Once the fuel covers the parent chain of `j`, the computed level no
longer depends on the fuel. -/
lemma levelF_stable (parents : Nat → Nat) :
    ∀ k fuel j, parents^[k] j = 0 → k ≤ fuel →
      levelF parents fuel j = levelF parents k j := by
  intro k
  induction k with
  | zero =>
    intro fuel j h0 _
    simp only [Function.iterate_zero, id] at h0
    subst h0
    rw [levelF_zero, levelF_zero]
  | succ k ih =>
    intro fuel j h0 hle
    by_cases hj : j = 0
    · subst hj; rw [levelF_zero, levelF_zero]
    · obtain ⟨f, rfl⟩ : ∃ f, fuel = f + 1 := ⟨fuel - 1, by omega⟩
      have h0' : parents^[k] (parents j) = 0 := by
        rwa [Function.iterate_succ_apply] at h0
      simp only [levelF, if_neg hj]
      rw [ih f (parents j) h0' (by omega)]

/-! ### Claim theorems -/

/-- Claim C1, counterexample.  On `cellAsym` (child radius 1 and
resistivity 1, parent radius 2 and resistivity 3, unit lengths), the two
junction conductances assembled by `init_branch_conds` match the coupling
formula `g(a→b)` evaluated with the resistivity of the source compartment
`a` for NEITHER choice of source: with the child's last compartment as `a`
the formula gives `compute_coupling_cond 1 2 1 1 1 = 4/5`, with the
parent's first compartment as `a` it gives
`compute_coupling_cond 2 1 3 1 1 = 2/15`, while the code produces `4/15`
(fwd) and `2/5` (bwd) — each junction conductance uses the resistivity of
the OTHER compartment. -/
theorem junction_resistivity_not_source_cex :
    branch_conds_fwd_raw cellAsym 0
        ≠ compute_coupling_cond (cellAsym.radius 1 0) (cellAsym.radius 0 0)
            (cellAsym.axial_resistivity 1 0) (cellAsym.length 1 0)
            (cellAsym.length 0 0)
    ∧ branch_conds_fwd_raw cellAsym 0
        ≠ compute_coupling_cond (cellAsym.radius 0 0) (cellAsym.radius 1 0)
            (cellAsym.axial_resistivity 0 0) (cellAsym.length 0 0)
            (cellAsym.length 1 0)
    ∧ branch_conds_bwd_raw cellAsym 0
        ≠ compute_coupling_cond (cellAsym.radius 1 0) (cellAsym.radius 0 0)
            (cellAsym.axial_resistivity 1 0) (cellAsym.length 1 0)
            (cellAsym.length 0 0)
    ∧ branch_conds_bwd_raw cellAsym 0
        ≠ compute_coupling_cond (cellAsym.radius 0 0) (cellAsym.radius 1 0)
            (cellAsym.axial_resistivity 0 0) (cellAsym.length 0 0)
            (cellAsym.length 1 0) := by
  refine ⟨?_, ?_, ?_, ?_⟩ <;>
    norm_num [branch_conds_fwd_raw, branch_conds_bwd_raw,
      compute_coupling_cond, cellAsym]

/-- Claim C1, amended.  `compute_coupling_cond(rad1, rad2, r_a, l1, l2)`
returns exactly `rad1·rad2²/r_a/(rad2²·l1 + rad1²·l2)/l1`, and every
junction conductance assembled by `init_branch_conds` is this formula
evaluated with the resistivity of the ADJACENT compartment `b`, not of the
source compartment `a`: the backward conductance takes `a` = the parent's
first compartment but divides by the resistivity of the child's last
compartment, and the forward conductance takes `a` = the child's last
compartment but divides by the resistivity of the parent's first
compartment. -/
theorem compute_coupling_cond_formula_and_adjacent_resistivity
    (rad1 rad2 r_a l1 l2 : ℚ) (c : Cell) (j : Nat) :
    compute_coupling_cond rad1 rad2 r_a l1 l2
        = rad1 * rad2 ^ 2 / r_a / (rad2 ^ 2 * l1 + rad1 ^ 2 * l2) / l1
    ∧ branch_conds_bwd_raw c j
        = c.radius (c.parents (j + 1)) 0 * c.radius (j + 1) (c.nseg - 1) ^ 2
            / c.axial_resistivity (j + 1) (c.nseg - 1)
            / (c.radius (j + 1) (c.nseg - 1) ^ 2 * c.length (c.parents (j + 1)) 0
                + c.radius (c.parents (j + 1)) 0 ^ 2 * c.length (j + 1) (c.nseg - 1))
            / c.length (c.parents (j + 1)) 0
    ∧ branch_conds_fwd_raw c j
        = c.radius (j + 1) (c.nseg - 1) * c.radius (c.parents (j + 1)) 0 ^ 2
            / c.axial_resistivity (c.parents (j + 1)) 0
            / (c.radius (c.parents (j + 1)) 0 ^ 2 * c.length (j + 1) (c.nseg - 1)
                + c.radius (j + 1) (c.nseg - 1) ^ 2 * c.length (c.parents (j + 1)) 0)
            / c.length (j + 1) (c.nseg - 1) :=
  ⟨rfl, rfl, rfl⟩

/-- Claim C2, counterexample.  On `cellAsym`, the backward junction
conductance is NOT the formula taken in the child→parent direction with
`a` = the child's last compartment (the claim's value is
`compute_coupling_cond 1 2 1 1 1 = 4/5`, the code computes `2/5`), and the
forward junction conductance is NOT the formula taken in the parent→child
direction with `a` = the parent's first compartment (the claim's value is
`compute_coupling_cond 2 1 3 1 1 = 2/15`, the code computes `4/15`). -/
theorem junction_direction_roles_cex :
    branch_conds_bwd_raw cellAsym 0
        ≠ compute_coupling_cond (cellAsym.radius 1 0) (cellAsym.radius 0 0)
            (cellAsym.axial_resistivity 1 0) (cellAsym.length 1 0)
            (cellAsym.length 0 0)
    ∧ branch_conds_fwd_raw cellAsym 0
        ≠ compute_coupling_cond (cellAsym.radius 0 0) (cellAsym.radius 1 0)
            (cellAsym.axial_resistivity 0 0) (cellAsym.length 0 0)
            (cellAsym.length 1 0) := by
  constructor <;>
    norm_num [branch_conds_fwd_raw, branch_conds_bwd_raw,
      compute_coupling_cond, cellAsym]

/-- Claim C2, amended.  For every non-root branch `i`, the stored
`branch_conds_bwd[i]` is the asymmetric formula evaluated with `a` = the
FIRST compartment of `parents[i]` and `b` = the LAST compartment of branch
`i` (using the resistivity of branch `i`'s last compartment), and
`branch_conds_fwd[i]` is the formula with `a` = the last compartment of
branch `i` and `b` = the first compartment of `parents[i]` (using the
resistivity of the parent's first compartment) — the direction roles are
the mirror image of the claim — each times the `10^7` unit factor. -/
theorem branch_conds_junction_directions (c : Cell) (i : Nat)
    (h1 : 1 ≤ i) (hi : i < c.nbranches) :
    (branch_conds_bwd_final c).getD i 0
        = compute_coupling_cond (c.radius (c.parents i) 0)
            (c.radius i (c.nseg - 1)) (c.axial_resistivity i (c.nseg - 1))
            (c.length (c.parents i) 0) (c.length i (c.nseg - 1)) * 10 ^ 7
    ∧ (branch_conds_fwd_final c).getD i 0
        = compute_coupling_cond (c.radius i (c.nseg - 1))
            (c.radius (c.parents i) 0) (c.axial_resistivity (c.parents i) 0)
            (c.length i (c.nseg - 1)) (c.length (c.parents i) 0) * 10 ^ 7 := by
  obtain ⟨j, rfl⟩ : ∃ j, i = j + 1 := ⟨i - 1, by omega⟩
  have hj : j < c.nbranches - 1 := by omega
  constructor
  · show (0 :: (List.range (c.nbranches - 1)).map
        (branch_conds_bwd_scaled c)).getD (j + 1) 0 = _
    rw [List.getD_cons_succ, getD_map_range _ _ _ hj]
    rfl
  · show (0 :: (List.range (c.nbranches - 1)).map
        (branch_conds_fwd_scaled c)).getD (j + 1) 0 = _
    rw [List.getD_cons_succ, getD_map_range _ _ _ hj]
    rfl

/-- Claim C2, amended, witness at `cellAsym`, branch `i = 1`. -/
theorem branch_conds_junction_directions_witness :
    (1 ≤ 1 ∧ 1 < cellAsym.nbranches)
    ∧ (branch_conds_bwd_final cellAsym).getD 1 0
        = compute_coupling_cond (cellAsym.radius (cellAsym.parents 1) 0)
            (cellAsym.radius 1 (cellAsym.nseg - 1))
            (cellAsym.axial_resistivity 1 (cellAsym.nseg - 1))
            (cellAsym.length (cellAsym.parents 1) 0)
            (cellAsym.length 1 (cellAsym.nseg - 1)) * 10 ^ 7 :=
  ⟨⟨le_rfl, by norm_num [cellAsym]⟩,
    (branch_conds_junction_directions cellAsym 1 le_rfl
      (by norm_num [cellAsym])).1⟩

/-- Claim C4.  On a freshly constructed `Cell` the guard
`if self.branch_conds_fwd is None` at the top of `step` reads the unset
attribute `branch_conds_fwd`; the lookup falls through to `__getattr__`,
whose `assert key == "branch"` fails, so the first `step` raises an
`AssertionError` instead of lazily running `init_branch_conds`. -/
theorem step_on_fresh_cell_raises_assertion :
    step_first_conds_access = Except.error "AssertionError" := rfl

/-- Claim C5.  `init_branch_conds` is not idempotent: it never consults
`initialized_conds`, and its accumulation loop adds the junction
conductances into `summed_coupling_conds` on every call.  On the
two-branch `cellUniform`, the root's first-compartment entry is `5·10⁶`
after one call and `10⁷` after a second call. -/
theorem init_branch_conds_second_call_changes_summed :
    summed_coupling_conds_after cellUniform
        (summed_coupling_conds_after cellUniform cellUniform.summed0) 0 0
      ≠ summed_coupling_conds_after cellUniform cellUniform.summed0 0 0 := by
  norm_num [summed_coupling_conds_after, summed_loop, addAt, cellUniform,
    branch_conds_fwd_scaled, branch_conds_bwd_scaled, branch_conds_fwd_raw,
    branch_conds_bwd_raw, compute_coupling_cond]

/-- Claim C3.  A single run of the accumulation loop of
`init_branch_conds` (with at least two compartments per branch, so that a
branch's last and first compartments are distinct slots) increases the
last-compartment entry of every non-root branch `b` by exactly branch
`b`'s own forward junction conductance, increases the first-compartment
entry of every branch `p` by exactly the sum of the backward junction
conductances of all of `p`'s children (contributions of siblings
accumulate additively), and leaves every other entry unchanged. -/
theorem summed_coupling_conds_accumulation (c : Cell)
    (h2 : 2 ≤ c.nseg) (hn : 1 ≤ c.nbranches) :
    (∀ b, 1 ≤ b → b < c.nbranches →
        summed_coupling_conds_after c c.summed0 b (c.nseg - 1)
          = c.summed0 b (c.nseg - 1) + branch_conds_fwd_scaled c (b - 1))
    ∧ (∀ p, summed_coupling_conds_after c c.summed0 p 0
          = c.summed0 p 0
            + ∑ b ∈ Finset.Ico 1 c.nbranches,
                if c.parents b = p then branch_conds_bwd_scaled c (b - 1)
                else 0)
    ∧ (∀ i j, j ≠ 0 → ¬(1 ≤ i ∧ i < c.nbranches ∧ j = c.nseg - 1) →
        summed_coupling_conds_after c c.summed0 i j = c.summed0 i j) := by
  refine ⟨fun b hb hbn => ?_, fun p => ?_, fun i j hj hne => ?_⟩
  · rw [summed_coupling_conds_after,
      summed_loop_lastcol c c.summed0 h2 b hb (c.nbranches - 1),
      if_pos (by omega)]
  · rw [summed_coupling_conds_after,
      summed_loop_col0 c c.summed0 h2 p (c.nbranches - 1), childSum,
      Nat.sub_add_cancel hn]
  · rw [summed_coupling_conds_after]
    exact summed_loop_other c c.summed0 i j hj (c.nbranches - 1)
      (fun hc => hne ⟨hc.1, by omega, hc.2.2⟩)

/-- Claim C3, witness at `cellTwoSeg` (two branches, two compartments):
branch 1's last-compartment entry gains exactly its forward junction
conductance. -/
theorem summed_coupling_conds_accumulation_witness :
    (2 ≤ cellTwoSeg.nseg ∧ 1 ≤ cellTwoSeg.nbranches)
    ∧ summed_coupling_conds_after cellTwoSeg cellTwoSeg.summed0 1
          (cellTwoSeg.nseg - 1)
        = cellTwoSeg.summed0 1 (cellTwoSeg.nseg - 1)
          + branch_conds_fwd_scaled cellTwoSeg 0 :=
  ⟨⟨by norm_num [cellTwoSeg], by norm_num [cellTwoSeg]⟩,
    (summed_coupling_conds_accumulation cellTwoSeg
        (by norm_num [cellTwoSeg]) (by norm_num [cellTwoSeg])).1 1 le_rfl
      (by norm_num [cellTwoSeg])⟩

/-- Claim C6.  After `init_branch_conds`, the padded arrays
`branch_conds_fwd` and `branch_conds_bwd` have length `nbranches`, their
element 0 is `0.0` (the additive identity contributed by the root, which
has no parent), and every branch index in `[0, nbranches)` is in bounds
for both arrays. -/
theorem branch_conds_zero_padding (c : Cell) (hn : 1 ≤ c.nbranches) :
    (branch_conds_fwd_final c).length = c.nbranches
    ∧ (branch_conds_bwd_final c).length = c.nbranches
    ∧ (branch_conds_fwd_final c).getD 0 0 = 0
    ∧ (branch_conds_bwd_final c).getD 0 0 = 0
    ∧ ∀ i, i < c.nbranches →
        i < (branch_conds_fwd_final c).length
        ∧ i < (branch_conds_bwd_final c).length := by
  have hf : (branch_conds_fwd_final c).length = c.nbranches := by
    simp [branch_conds_fwd_final]; omega
  have hb : (branch_conds_bwd_final c).length = c.nbranches := by
    simp [branch_conds_bwd_final]; omega
  exact ⟨hf, hb, rfl, rfl, fun i hi => ⟨by omega, by omega⟩⟩

/-- Claim C6, witness at `cellUniform`. -/
theorem branch_conds_zero_padding_witness :
    1 ≤ cellUniform.nbranches
    ∧ (branch_conds_fwd_final cellUniform).length = cellUniform.nbranches
    ∧ (branch_conds_fwd_final cellUniform).getD 0 0 = 0 :=
  ⟨by norm_num [cellUniform],
    (branch_conds_zero_padding cellUniform (by norm_num [cellUniform])).1,
    (branch_conds_zero_padding cellUniform
      (by norm_num [cellUniform])).2.2.1⟩

/-- Claim C7.  Every junction-conductance entry of the stored
`branch_conds_fwd` and `branch_conds_bwd` arrays is the raw geometric
formula multiplied by `10^7` exactly once, and it is this scaled value
that the accumulation loop folds into `summed_coupling_conds`. -/
theorem branch_conds_unit_conversion (c : Cell) (b : Nat)
    (h1 : 1 ≤ b) (hb : b < c.nbranches) (h2 : 2 ≤ c.nseg) :
    (branch_conds_fwd_final c).getD b 0
        = branch_conds_fwd_raw c (b - 1) * 10 ^ 7
    ∧ (branch_conds_bwd_final c).getD b 0
        = branch_conds_bwd_raw c (b - 1) * 10 ^ 7
    ∧ summed_coupling_conds_after c c.summed0 b (c.nseg - 1)
        = c.summed0 b (c.nseg - 1)
          + branch_conds_fwd_raw c (b - 1) * 10 ^ 7 := by
  obtain ⟨j, rfl⟩ : ∃ j, b = j + 1 := ⟨b - 1, by omega⟩
  have hj : j < c.nbranches - 1 := by omega
  refine ⟨?_, ?_, ?_⟩
  · show (0 :: (List.range (c.nbranches - 1)).map
        (branch_conds_fwd_scaled c)).getD (j + 1) 0 = _
    rw [List.getD_cons_succ, getD_map_range _ _ _ hj]
    rfl
  · show (0 :: (List.range (c.nbranches - 1)).map
        (branch_conds_bwd_scaled c)).getD (j + 1) 0 = _
    rw [List.getD_cons_succ, getD_map_range _ _ _ hj]
    rfl
  · rw [summed_coupling_conds_after,
      summed_loop_lastcol c c.summed0 h2 (j + 1) (by omega) (c.nbranches - 1),
      if_pos (by omega)]
    rfl

/-- Claim C7, witness at `cellTwoSeg`, branch 1. -/
theorem branch_conds_unit_conversion_witness :
    (1 ≤ 1 ∧ 1 < cellTwoSeg.nbranches ∧ 2 ≤ cellTwoSeg.nseg)
    ∧ (branch_conds_fwd_final cellTwoSeg).getD 1 0
        = branch_conds_fwd_raw cellTwoSeg 0 * 10 ^ 7 :=
  ⟨⟨le_rfl, by norm_num [cellTwoSeg], by norm_num [cellTwoSeg]⟩,
    (branch_conds_unit_conversion cellTwoSeg 1 le_rfl
      (by norm_num [cellTwoSeg]) (by norm_num [cellTwoSeg])).1⟩

/-- Claim C8.  Row-major reshape of a flat vector of length
`nbranches · nseg` to `(nbranches, nseg)` followed by a row-major flatten
recovers the original vector exactly, so the reshape at the start of
`step` and the final `flatten(order="C")` are mutually inverse and
compartment ordering is preserved across a step. -/
theorem reshape_flatten_roundtrip (n m : Nat) (v : List ℚ)
    (h : v.length = n * m) : flatten_C (reshape n m v) = v := by
  induction n generalizing v with
  | zero =>
    have : v = [] := List.eq_nil_of_length_eq_zero (by omega)
    subst this
    rfl
  | succ n ih =>
    have hd : (v.drop m).length = n * m := by
      rw [List.length_drop, h, Nat.succ_mul, Nat.add_sub_cancel]
    show flatten_C (v.take m :: reshape n m (v.drop m)) = v
    unfold flatten_C
    rw [List.flatten_cons]
    have hrec := ih (v.drop m) hd
    unfold flatten_C at hrec
    rw [hrec]
    exact List.take_append_drop m v

/-- Claim C8, witness: a vector of length `2 · 3`. -/
theorem reshape_flatten_roundtrip_witness :
    ([1, 2, 3, 4, 5, 6] : List ℚ).length = 2 * 3
    ∧ flatten_C (reshape 2 3 [1, 2, 3, 4, 5, 6]) = [1, 2, 3, 4, 5, 6] :=
  ⟨rfl, reshape_flatten_roundtrip 2 3 [1, 2, 3, 4, 5, 6] rfl⟩

/-- Claim C9.  For every valid `parents` array (cycle-free, so every
branch's parent chain reaches the root within `nbranches` steps), the
levels computed by `init_morph` put the root at level 0 and satisfy
`levels[parents[i]] < levels[i]` for every non-root branch `i`: levels
strictly increase along every parent chain from root to leaf.
(`compute_levels` is modelled from the spec; see its definition.) -/
theorem compute_levels_strict_increase (n : Nat) (parents : Nat → Nat)
    (hreach : parents_reach_root n parents) :
    compute_levels n parents 0 = 0
    ∧ ∀ i, i < n → i ≠ 0 →
        compute_levels n parents (parents i) < compute_levels n parents i := by
  constructor
  · exact levelF_zero parents n
  · intro i hi hne
    obtain ⟨k, hkmem, hit⟩ := hreach i (Finset.mem_range.mpr hi)
    have hk : k < n := Finset.mem_range.mp hkmem
    obtain ⟨k1, rfl⟩ : ∃ k1, k = k1 + 1 := by
      refine ⟨k - 1, ?_⟩
      rcases Nat.eq_zero_or_pos k with h0 | h0
      · subst h0; simp at hit; exact absurd hit hne
      · omega
    have hit' : parents^[k1] (parents i) = 0 := by
      rwa [Function.iterate_succ_apply] at hit
    obtain ⟨m, rfl⟩ : ∃ m, n = m + 1 := ⟨n - 1, by omega⟩
    have hstep : levelF parents (m + 1) i = levelF parents m (parents i) + 1 := by
      simp only [levelF, if_neg hne]
    have hs1 : levelF parents m (parents i) = levelF parents k1 (parents i) :=
      levelF_stable parents k1 m (parents i) hit' (by omega)
    have hs2 : levelF parents (m + 1) (parents i) = levelF parents k1 (parents i) :=
      levelF_stable parents k1 (m + 1) (parents i) hit' (by omega)
    show levelF parents (m + 1) (parents i) < levelF parents (m + 1) i
    omega

/-- Claim C9, witness: the chain 0 ← 1 ← 2 of three branches. -/
theorem compute_levels_strict_increase_witness :
    parents_reach_root 3 parentsChain
    ∧ compute_levels 3 parentsChain (parentsChain 2)
        < compute_levels 3 parentsChain 2 :=
  ⟨by decide,
    (compute_levels_strict_increase 3 parentsChain (by decide)).2 2
      (by norm_num) (by norm_num)⟩

/-- Claim C10.  For any attribute name not set on the instance, attribute
access on a `Cell` runs `__getattr__`: every name other than exactly
"branch" fails the assertion (an `AssertionError`, not an
`AttributeError`), and "branch" returns a `BranchView` over the cell's
node table. -/
theorem getattr_asserts_branch (attrs : List String) (key : String)
    (h : key ∉ attrs) :
    (key ≠ "branch" →
        cell_getattr attrs key = Except.error "AssertionError")
    ∧ (key = "branch" →
        cell_getattr attrs key = Except.ok "BranchView(self, self.nodes)") := by
  constructor
  · intro hk
    simp [cell_getattr, h, getattr_fallback, hk]
  · intro hk
    subst hk
    simp [cell_getattr, h, getattr_fallback]

/-- Claim C10, witness: the misspelled name "brnch" on a fresh `Cell`. -/
theorem getattr_asserts_branch_witness :
    ("brnch" ∉ fresh_cell_attrs ∧ "brnch" ≠ "branch")
    ∧ cell_getattr fresh_cell_attrs "brnch" = Except.error "AssertionError" :=
  ⟨⟨by decide, by decide⟩,
    (getattr_asserts_branch fresh_cell_attrs "brnch" (by decide)).1
      (by decide)⟩

end Neurax
